import Mathlib

/-!
# Verification of the SilverLab NWB acquisition-metadata engine

A shallow embedding, in Lean 4, of the header parsing, trial-boundary
detection, ROI geometry and pixel-timing reconstruction code of the
PySilverLabNWB repository (`silverlabnwb/header.py`, `nwb_file.py`,
`timings.py`, `rois.py`), together with theorems settling the claims of
the natural-language specification against this embedding.

Times and other floating-point quantities are modelled as rationals (`ℚ`);
the properties verified here are structural (counts, indices, exact
arithmetic relations between inputs and outputs) and do not depend on
floating-point rounding.
-/

namespace SilverLab

/-! ## Basic value model for parsed header entries

`header.py` stores each parsed header value either as a Python `float`
(when `float(value)` succeeds) or as a string (with surrounding double
quotes stripped).  We model this sum with `HVal`.
-/

/-- A processed header value: a number (Python `float`, modelled as `ℚ`)
or a string. -/
inductive HVal where
  | num (q : ℚ)
  | str (s : String)
deriving DecidableEq, Repr

/-! ## Gen2 (LabView 2.3.1) trial times — `LabViewHeader231.determine_trial_times`

In `header.py`, the `Intertrial FIFO Times` section is parsed into a dict
mapping row index (0-based, as found in the file) to a timestamp.  We model
the `m` rows, indexed `0 .. m-1`, as a list `ts` of timestamps.
`determine_trial_times` computes `ceil(m / 2)` trials and pairs up
consecutive rows, leaving the final end time `None` when the row count is
odd.  Python dict access `parsed_times[k]` is modelled by `ts.get? k`
(a missing key, i.e. `none`, corresponds to a `KeyError`).
-/

/-- Embedding of `LabViewHeader231.determine_trial_times` (`header.py`
lines 241-255).  `ts` holds the parsed trial-time rows, indexed `0..m-1`.
Each component of a returned pair is an `Option`: `none` in the first
component would be a `KeyError`; `none` in the second component is either
the deliberate `None` sentinel (end time to be determined later) for the
final trial, or a `KeyError` elsewhere. -/
def determineTrialTimes231 (ts : List ℚ) : List (Option ℚ × Option ℚ) :=
  let numberOfTrials := (ts.length + 1) / 2          -- ceil(len / 2)
  let lastTimePresent := ts.length = 2 * numberOfTrials
  (List.range numberOfTrials).map fun i =>
    (ts.get? (2 * i),
     if i < numberOfTrials - 1 ∨ lastTimePresent then ts.get? (2 * i + 1) else none)

/-- The `i`-th entry produced by `determineTrialTimes231`, for `i` below the
trial count `ceil(m/2)`. -/
lemma determineTrialTimes231_get (ts : List ℚ) (i : ℕ) (h : i < (ts.length + 1) / 2) :
    (determineTrialTimes231 ts).get? i
      = some (ts.get? (2 * i),
          if i < (ts.length + 1) / 2 - 1 ∨ ts.length = 2 * ((ts.length + 1) / 2)
          then ts.get? (2 * i + 1) else none) := by
  simp [determineTrialTimes231, List.get?_eq_getElem?, List.getElem?_map,
    List.getElem?_range, h]

/-- C1: for a Gen2 header whose trial-times section has `m` rows indexed
`0..m-1`, `determine_trial_times` returns exactly `ceil(m/2)` intervals;
every interval `i` with `2*i+1 < m` is the fully resolved pair
`(row 2i, row 2i+1)` (so for `m = 2n` all `n` intervals are resolved); and
when `m` is odd the last interval is `(row m-1, None)`, i.e. only the final
end time is the unresolved sentinel. -/
theorem trialTimes231_pairs (ts : List ℚ) :
    (determineTrialTimes231 ts).length = (ts.length + 1) / 2
    ∧ (∀ i, 2 * i + 1 < ts.length →
        (determineTrialTimes231 ts).get? i = some (ts.get? (2 * i), ts.get? (2 * i + 1))
        ∧ (ts.get? (2 * i)).isSome ∧ (ts.get? (2 * i + 1)).isSome)
    ∧ (Odd ts.length →
        (determineTrialTimes231 ts).get? ((ts.length + 1) / 2 - 1)
          = some (ts.get? (ts.length - 1), none)
        ∧ (ts.get? (ts.length - 1)).isSome) := by
  refine ⟨by simp [determineTrialTimes231], ?_, ?_⟩
  · intro i hi
    have hn : i < (ts.length + 1) / 2 := by omega
    have hcond : i < (ts.length + 1) / 2 - 1 ∨ ts.length = 2 * ((ts.length + 1) / 2) := by
      omega
    refine ⟨?_, ?_, ?_⟩
    · rw [determineTrialTimes231_get ts i hn, if_pos hcond]
    · rw [List.get?_eq_get (by omega : 2 * i < ts.length)]; rfl
    · rw [List.get?_eq_get (by omega : 2 * i + 1 < ts.length)]; rfl
  · intro hodd
    obtain ⟨k, hk⟩ := hodd
    have hn : (ts.length + 1) / 2 - 1 < (ts.length + 1) / 2 := by omega
    have hcond : ¬((ts.length + 1) / 2 - 1 < (ts.length + 1) / 2 - 1
        ∨ ts.length = 2 * ((ts.length + 1) / 2)) := by omega
    refine ⟨?_, ?_⟩
    · rw [determineTrialTimes231_get ts _ hn, if_neg hcond]
      have h2 : 2 * ((ts.length + 1) / 2 - 1) = ts.length - 1 := by omega
      rw [h2]
    · rw [List.get?_eq_get (by omega : ts.length - 1 < ts.length)]; rfl

/-- Witness for C1: on the 3-row input `[1, 2, 3]` (odd `m = 3`, so
`ceil(m/2) = 2` trials), interval 0 is the resolved pair `(1, 2)` and
interval 1 is `(3, None)`. -/
theorem trialTimes231_pairs_witness :
    (determineTrialTimes231 [1, 2, 3]).get? 0
        = some (([1, 2, 3] : List ℚ).get? 0, ([1, 2, 3] : List ℚ).get? 1)
    ∧ (determineTrialTimes231 [1, 2, 3]).get? 1
        = some (([1, 2, 3] : List ℚ).get? 2, none) :=
  ⟨((trialTimes231_pairs [1, 2, 3]).2.1 0 (by decide)).1,
   ((trialTimes231_pairs [1, 2, 3]).2.2 (by decide)).1⟩

/-! ## Imaging modes (`imaging.py`) and ROI geometry (`rois.py`) -/

/-- Scanning modes supported by the AOL microscope (`imaging.py`).  In the
Python enum the member `patch` is an alias carrying the same value as
`miniscan`, so the model has a single constructor for both. -/
inductive Modes where
  | pointing
  | miniscan
  | volume
deriving DecidableEq, Repr

/-- The member `Modes.patch` aliases `Modes.miniscan` (both have value 2 in `imaging.py`). -/
def Modes.patch : Modes := Modes.miniscan

/-- One row of the ROI table as used by `ClassicRoiReader`: the pixel
bounding-box coordinates are converted to `np.uint16` after reading
(`base_type_conversion_post_read` in `rois.py`), the rotation angle stays
floating-point. -/
structure RoiRow where
  x_start : ℕ
  x_stop : ℕ
  y_start : ℕ
  y_stop : ℕ
  angle_deg : ℚ
deriving DecidableEq, Repr

/-- Subtraction on `uint16` values (numpy wraps around modulo `2^16`). -/
def sub16 (a b : ℕ) : ℕ := (a % 65536 + (65536 - b % 65536)) % 65536

/-- Embedding of `ClassicRoiReader._get_lines_pixels` (`rois.py` lines
129-144): Y/X pixel extents, with the axis assignment swapped when the
rotation angle is non-zero. -/
def ClassicRoiReader.getLinesPixels (row : RoiRow) : ℕ × ℕ :=
  let nYPixels := sub16 row.y_stop row.y_start
  let nXPixels := sub16 row.x_stop row.x_start
  if row.angle_deg = 0 then (nYPixels, nXPixels) else (nXPixels, nYPixels)

/-- Embedding of `RoiReader.get_lines_pixels` (`rois.py` lines 89-100) for
the legacy/Gen2 (`ClassicRoiReader`) case: pointing mode forces `(1, 1)`,
otherwise the per-row geometry derivation runs. -/
def RoiReader.get_lines_pixels (mode : Modes) (row : RoiRow) : ℕ × ℕ :=
  if mode = Modes.pointing then (1, 1) else ClassicRoiReader.getLinesPixels row

/-- Subtraction on `uint16` values agrees with exact subtraction when the operands are
in range and in order. -/
lemma sub16_eq_sub (a b : ℕ) (hle : b ≤ a) (ha : a < 65536) : sub16 a b = a - b := by
  unfold sub16
  omega

/-- C6: for the legacy/Gen2 fixed-size ROI reader, on any ROI row with
in-range, ordered pixel bounds: outside pointing mode the result is
`(y_stop - y_start, x_stop - x_start)` when the angle is exactly 0 and the
swapped pair otherwise; in pointing mode the result is `(1, 1)` regardless
of the row's extents. -/
theorem get_lines_pixels_spec (mode : Modes) (row : RoiRow)
    (hx : row.x_start ≤ row.x_stop) (hy : row.y_start ≤ row.y_stop)
    (hxs : row.x_stop < 65536) (hys : row.y_stop < 65536) :
    (mode ≠ Modes.pointing →
      RoiReader.get_lines_pixels mode row
        = if row.angle_deg = 0
          then (row.y_stop - row.y_start, row.x_stop - row.x_start)
          else (row.x_stop - row.x_start, row.y_stop - row.y_start))
    ∧ (mode = Modes.pointing → RoiReader.get_lines_pixels mode row = (1, 1)) := by
  constructor
  · intro hmode
    rw [RoiReader.get_lines_pixels, if_neg hmode, ClassicRoiReader.getLinesPixels]
    rw [sub16_eq_sub _ _ hy hys, sub16_eq_sub _ _ hx hxs]
  · intro hmode
    rw [RoiReader.get_lines_pixels, if_pos hmode]

/-- Witness for C6: a 10×4 ROI at angle 30° (axes swapped) in miniscan mode,
and the same row in pointing mode. -/
theorem get_lines_pixels_spec_witness :
    RoiReader.get_lines_pixels Modes.miniscan ⟨2, 6, 3, 13, 30⟩ = (4, 10)
    ∧ RoiReader.get_lines_pixels Modes.pointing ⟨2, 6, 3, 13, 30⟩ = (1, 1) := by
  constructor
  · have h := (get_lines_pixels_spec Modes.miniscan ⟨2, 6, 3, 13, 30⟩
      (by decide) (by decide) (by decide) (by decide)).1 (by decide)
    rw [h, if_neg (by decide)]
    decide
  · exact (get_lines_pixels_spec Modes.pointing ⟨2, 6, 3, 13, 30⟩
      (by decide) (by decide) (by decide) (by decide)).2 rfl

/-! ## Schema-generation resolution (`LabViewHeader.from_file`, `header.py`
lines 57-67)

After parsing, `from_file` probes `parsed_fields['LOGIN']['Software
Version']`; a `KeyError` (section or key absent, modelled as `none`) selects
the pre-2018 variant, the exact string `'2.3.1'` selects the Gen2 variant,
and anything else raises a `ValueError` whose message is the format string
Unsupported-LabView-version filled with the offending value. -/

/-- The LabView schema generations recognised by `header.py`. -/
inductive LabViewVersions where
  | pre2018
  | v231
deriving DecidableEq, Repr

/-- The text a parsed header value contributes when interpolated into a
Python format string (a string value is inserted as-is; a numeric value is
rendered as a decimal numeral). -/
def hvalText : HVal → String
  | .num q => toString q
  | .str s => s

/-- Embedding of the version-dispatch tail of `LabViewHeader.from_file`
(`header.py` lines 57-67).  The argument is the value found at
`parsed_fields['LOGIN']['Software Version']`, or `none` when that lookup
raises `KeyError`. -/
def fromFileVersion (v : Option HVal) : Except String LabViewVersions :=
  match v with
  | none => .ok .pre2018
  | some v =>
      if v = HVal.str "2.3.1" then .ok .v231
      else .error ("Unsupported LabView version " ++ hvalText v ++ ".")

/-- C7: absence of the version key resolves to the oldest generation; the
known label `'2.3.1'` resolves to the Gen2 variant; any other value is a
hard failure whose error message names the unsupported value. -/
theorem fromFileVersion_spec :
    fromFileVersion none = .ok LabViewVersions.pre2018
    ∧ fromFileVersion (some (HVal.str "2.3.1")) = .ok LabViewVersions.v231
    ∧ (∀ v : HVal, v ≠ HVal.str "2.3.1" →
        ∃ pre post : String,
          fromFileVersion (some v) = .error (pre ++ hvalText v ++ post)) := by
  refine ⟨rfl, by simp [fromFileVersion], ?_⟩
  intro v hv
  exact ⟨"Unsupported LabView version ", ".", by simp [fromFileVersion, hv]⟩

/-- Witness for C7: the explicit version string `'3.0.0'` is rejected with a
message naming it. -/
theorem fromFileVersion_spec_witness :
    ∃ pre post : String,
      fromFileVersion (some (HVal.str "3.0.0"))
        = .error (pre ++ hvalText (HVal.str "3.0.0") ++ post) :=
  fromFileVersion_spec.2.2 (HVal.str "3.0.0") (by decide)

/-! ## Imaging-mode determination (`header.py`)

`LabViewHeaderPre2018._determine_imaging_mode` (lines 160-166) reads the
`number of poi` and `number of miniscans` counters of the `GLOBAL
PARAMETERS` section; `LabViewHeader231._determine_imaging_mode` (lines
197-216) reads the `Volume Imaging` / `Functional Imaging` string flags and
the `Functional Mode` field.  A raised `ValueError` is modelled as
`Except.error`. -/

/-- Embedding of `LabViewHeaderPre2018._determine_imaging_mode`. -/
def determineImagingModePre2018 (poi miniscans : ℚ) : Except String Modes :=
  if 0 < poi then .ok .pointing
  else if 0 < miniscans then .ok .miniscan
  else .error "Unsupported imaging type: numbers of poi and miniscans are zero."

/-- Embedding of `LabViewHeader231._determine_imaging_mode`. -/
def determineImagingMode231 (volumeImaging functionalImaging functionalMode : String) :
    Except String Modes :=
  if volumeImaging = "TRUE" ∧ functionalImaging = "TRUE" then
    .error "Unsupported imaging type: only one of Volume Imaging and Functional Imaging can be true."
  else if volumeImaging = "TRUE" then .ok .volume
  else if functionalImaging = "TRUE" then
    if functionalMode = "Point" then .ok .pointing
    else if functionalMode = "Patch" then .ok .miniscan
    else .error ("Unrecognised imaging mode: " ++ functionalMode
      ++ ". Valid options are: Point, Patch")
  else .error "Unsupported imaging type: either Volume Imaging or Functional Imaging must be true."

/-- Counterexample to C8: a legacy header with both `number of poi = 1 > 0`
and `number of miniscans = 1 > 0` does **not** raise a hard error — the code
silently returns pointing mode (the `poi` branch wins). -/
theorem imagingModePre2018_both_set_not_error :
    determineImagingModePre2018 1 1 = Except.ok Modes.pointing
    ∧ ∀ e, determineImagingModePre2018 1 1 ≠ Except.error e := by
  have h : determineImagingModePre2018 1 1 = Except.ok Modes.pointing := by
    rw [determineImagingModePre2018, if_pos (by norm_num)]
  exact ⟨h, fun e he => Except.noConfusion (h ▸ he)⟩

/-- C8 (amended): a legacy header with both counters positive silently
yields pointing mode (`number of poi` takes priority); the remaining cases
of the claim do hold: a legacy header with neither counter positive, a Gen2
header with both `'Volume Imaging'` and `'Functional Imaging'` equal to
`'TRUE'`, and a Gen2 header with neither flag equal to `'TRUE'`, are all
hard failures. -/
theorem determine_imaging_mode_spec :
    (∀ poi miniscans : ℚ, 0 < poi →
      determineImagingModePre2018 poi miniscans = .ok Modes.pointing)
    ∧ (∀ poi miniscans : ℚ, ¬0 < poi → ¬0 < miniscans →
      ∃ e, determineImagingModePre2018 poi miniscans = .error e)
    ∧ (∀ functionalMode : String,
      ∃ e, determineImagingMode231 "TRUE" "TRUE" functionalMode = .error e)
    ∧ (∀ volumeImaging functionalImaging functionalMode : String,
      volumeImaging ≠ "TRUE" → functionalImaging ≠ "TRUE" →
      ∃ e, determineImagingMode231 volumeImaging functionalImaging functionalMode
        = .error e) := by
  refine ⟨?_, ?_, ?_, ?_⟩
  · intro poi miniscans hpoi
    simp [determineImagingModePre2018, hpoi]
  · intro poi miniscans hpoi hmini
    refine ⟨"Unsupported imaging type: numbers of poi and miniscans are zero.", ?_⟩
    rw [determineImagingModePre2018, if_neg hpoi, if_neg hmini]
  · intro functionalMode
    refine ⟨"Unsupported imaging type: only one of Volume Imaging and Functional Imaging can be true.", ?_⟩
    rw [determineImagingMode231, if_pos ⟨rfl, rfl⟩]
  · intro volumeImaging functionalImaging functionalMode hv hf
    refine ⟨"Unsupported imaging type: either Volume Imaging or Functional Imaging must be true.", ?_⟩
    rw [determineImagingMode231, if_neg (fun h => hv h.1), if_neg hv, if_neg hf]

/-- Witness for the amended C8: concrete instances of all four cases
(legacy both-positive → pointing; legacy both-zero → error; Gen2 both-TRUE →
error; Gen2 both-FALSE → error). -/
theorem determine_imaging_mode_spec_witness :
    determineImagingModePre2018 2 3 = .ok Modes.pointing
    ∧ (∃ e, determineImagingModePre2018 0 0 = .error e)
    ∧ (∃ e, determineImagingMode231 "TRUE" "TRUE" "Point" = .error e)
    ∧ (∃ e, determineImagingMode231 "FALSE" "FALSE" "Point" = .error e) :=
  ⟨determine_imaging_mode_spec.1 2 3 (by decide),
   determine_imaging_mode_spec.2.1 0 0 (by decide) (by decide),
   determine_imaging_mode_spec.2.2.1 "Point",
   determine_imaging_mode_spec.2.2.2 "FALSE" "FALSE" "Point" (by decide) (by decide)⟩

/-! ## List indexing helpers -/

/-- Indexing a function mapped over `List.range` with `getD`. -/
lemma getD_map_range {α : Type} (d : α) (n i : ℕ) (f : ℕ → α) (h : i < n) :
    ((List.range n).map f).getD i d = f i := by
  rw [List.getD_eq_getElem?_getD]
  simp [List.getElem?_map, List.getElem?_range, h]

/-- Length of the concatenation of equally-sized blocks. -/
lemma length_join_uniform (l : List (List ℚ)) (m : ℕ) (h : ∀ x ∈ l, x.length = m) :
    l.flatten.length = l.length * m := by
  induction l with
  | nil => simp
  | cons x xs ih =>
      simp only [List.flatten_cons, List.length_append, List.length_cons]
      rw [h x (List.mem_cons_self x xs), ih (fun y hy => h y (List.mem_cons_of_mem x hy))]
      ring

/-- Block-index decomposition of an element of a concatenation of
equally-sized blocks. -/
lemma getD_join_uniform (l : List (List ℚ)) (m : ℕ) (h : ∀ x ∈ l, x.length = m)
    (i j : ℕ) (hi : i < l.length) (hj : j < m) :
    l.flatten.getD (i * m + j) 0 = (l.getD i []).getD j 0 := by
  induction l generalizing i with
  | nil => simp at hi
  | cons x xs ih =>
      have hx : x.length = m := h x (List.mem_cons_self x xs)
      cases i with
      | zero =>
          simp only [List.flatten_cons, Nat.zero_mul, Nat.zero_add]
          rw [List.getD_append _ _ _ _ (by omega)]
          rfl
      | succ i =>
          simp only [List.flatten_cons]
          have : (i + 1) * m + j = x.length + (i * m + j) := by
            rw [hx]; ring
          rw [this, List.getD_append_right _ _ _ _ (by omega)]
          have h2 : x.length + (i * m + j) - x.length = i * m + j := by omega
          rw [h2]
          exact ih (fun y hy => h y (List.mem_cons_of_mem x hy)) i
            (by simpa using Nat.lt_of_succ_lt_succ (Nat.succ_lt_succ (by simpa using hi)))

/-- Sum of a function mapped over `List.range` as a `Finset.range` sum. -/
lemma sum_map_range (n : ℕ) (f : ℕ → ℚ) :
    ((List.range n).map f).sum = ∑ i ∈ Finset.range n, f i := by
  induction n with
  | zero => simp
  | succ n ih =>
      rw [List.range_succ, List.map_append, List.sum_append, Finset.sum_range_succ, ih]
      simp

/-! ## Gen2+ pixel-timing reconstruction (`timings.py`, `LabViewTimings231`)

`_read_relative_times_file` (lines 70-73) reads one flat column, scales to
seconds (a unit change we leave to the caller: `flat` below holds the
already-scaled values), and drops zero-valued padding rows.
`_format_pixel_time_offsets` (lines 75-101) gathers, for each ROI and each
of the `n_cycles_per_trial * n_trials` cycles, a slice of
`n_lines_per_roi` consecutive entries starting at
`n_lines_per_roi * roi_index + n_lines_per_cycle * cycle_index`
(`n_lines_per_cycle = n_rois * n_lines_per_roi`), then broadcast-adds
`pixel_index * dwell_time` along a new pixel axis, and finally estimates
`cycle_time` by averaging, over trials, the tensor entry at
(first cycle of the trial, last ROI, last line, pixel 0).

Out-of-range reads are modelled with `getD`-defaults; the theorems that
depend on actual data carry a length hypothesis matching the domain on
which the numpy reshape succeeds. -/

/-- Embedding of the slice base offset `start_index` (`timings.py` line 82):
a fixed stride in the ROI index plus a whole-cycle stride in the cycle
index. -/
def startIndex231 (nRois nLinesPerRoi roiIndex cycleIndex : ℕ) : ℕ :=
  nLinesPerRoi * roiIndex + (nRois * nLinesPerRoi) * cycleIndex

/-- The `n_lines_per_roi`-sized slice of the flat timing array gathered for
one ROI and one cycle (`timings.py` lines 82-84). -/
def cycleSlice (flat : List ℚ) (nRois nLinesPerRoi roiIndex cycleIndex : ℕ) : List ℚ :=
  (List.range nLinesPerRoi).map fun line =>
    flat.getD (startIndex231 nRois nLinesPerRoi roiIndex cycleIndex + line) 0

/-- Embedding of the per-ROI `(trial*cycle, line, pixel)` tensor built by
`LabViewTimings231._format_pixel_time_offsets` (`timings.py` lines 75-87). -/
def pixelTimeOffsetsByRoi (flat : List ℚ) (nRois nLinesPerRoi nPixelsPerLine : ℕ)
    (dwellTime : ℚ) (nCyclesPerTrial nTrials : ℕ) (roiIndex : ℕ) :
    List (List (List ℚ)) :=
  (List.range (nCyclesPerTrial * nTrials)).map fun cycleIndex =>
    (cycleSlice flat nRois nLinesPerRoi roiIndex cycleIndex).map fun v =>
      (List.range nPixelsPerLine).map fun (pix : ℕ) => v + (pix : ℚ) * dwellTime

/-- The per-trial first-cycle/last-ROI/last-line/pixel-0 samples collected
by `_format_pixel_time_offsets` (`timings.py` lines 91-95). -/
def firstCycleTimes (flat : List ℚ) (nRois nLinesPerRoi nPixelsPerLine : ℕ)
    (dwellTime : ℚ) (nCyclesPerTrial nTrials : ℕ) : List ℚ :=
  (List.range nTrials).map fun trialIndex =>
    (((pixelTimeOffsetsByRoi flat nRois nLinesPerRoi nPixelsPerLine dwellTime
        nCyclesPerTrial nTrials (nRois - 1)).getD
      (trialIndex * nCyclesPerTrial) []).getD (nLinesPerRoi - 1) []).getD 0 0

/-- Embedding of the `cycle_time` estimate (`timings.py` line 97):
`np.mean` of the per-trial samples, i.e. their sum over their count. -/
def cycleTime231 (flat : List ℚ) (nRois nLinesPerRoi nPixelsPerLine : ℕ)
    (dwellTime : ℚ) (nCyclesPerTrial nTrials : ℕ) : ℚ :=
  (firstCycleTimes flat nRois nLinesPerRoi nPixelsPerLine dwellTime
      nCyclesPerTrial nTrials).sum
    / (firstCycleTimes flat nRois nLinesPerRoi nPixelsPerLine dwellTime
      nCyclesPerTrial nTrials).length

/-- The value the flat timing array contributes for trial `trialIndex`'s
first cycle, last ROI, last line, pixel 0.  Note that this does **not**
take the number of trials as an argument: each per-trial sample is
independent of how many trials exist. -/
def trialFirstCycleSample (flat : List ℚ) (nRois nLinesPerRoi nCyclesPerTrial : ℕ)
    (trialIndex : ℕ) : ℚ :=
  flat.getD (startIndex231 nRois nLinesPerRoi (nRois - 1)
    (trialIndex * nCyclesPerTrial) + (nLinesPerRoi - 1)) 0

/-- C3: the returned `cycle_time` is the arithmetic mean, over the `T`
trials, of the tensor entry at (first cycle of the trial, last ROI, last
line, pixel 0); and each per-trial sample equals
`trialFirstCycleSample`, a value whose definition does not mention the
number of trials — so varying `T` changes only the denominator of the
mean, never the per-trial sample values. -/
theorem cycleTime231_mean (flat : List ℚ) (nRois nLinesPerRoi nPixelsPerLine : ℕ)
    (dwellTime : ℚ) (nCyclesPerTrial nTrials : ℕ)
    (hT : 1 ≤ nTrials) (hR : 1 ≤ nRois) (hL : 1 ≤ nLinesPerRoi)
    (hP : 1 ≤ nPixelsPerLine) (hC : 1 ≤ nCyclesPerTrial) :
    cycleTime231 flat nRois nLinesPerRoi nPixelsPerLine dwellTime nCyclesPerTrial nTrials
      = (∑ t ∈ Finset.range nTrials,
          trialFirstCycleSample flat nRois nLinesPerRoi nCyclesPerTrial t) / nTrials
    ∧ ∀ t < nTrials,
        (firstCycleTimes flat nRois nLinesPerRoi nPixelsPerLine dwellTime
          nCyclesPerTrial nTrials).getD t 0
        = trialFirstCycleSample flat nRois nLinesPerRoi nCyclesPerTrial t := by
  have key : ∀ t < nTrials,
      (firstCycleTimes flat nRois nLinesPerRoi nPixelsPerLine dwellTime
        nCyclesPerTrial nTrials).getD t 0
      = trialFirstCycleSample flat nRois nLinesPerRoi nCyclesPerTrial t := by
    intro t ht
    rw [firstCycleTimes, getD_map_range _ _ _ _ ht]
    rw [pixelTimeOffsetsByRoi,
      getD_map_range _ _ _ _ (show t * nCyclesPerTrial < nCyclesPerTrial * nTrials from by
        have := Nat.mul_le_mul_left nCyclesPerTrial (show t + 1 ≤ nTrials from ht)
        nlinarith)]
    rw [cycleSlice, List.map_map, getD_map_range _ _ _ _ (by omega)]
    simp only [Function.comp_apply]
    rw [getD_map_range _ _ _ _ (by omega : (0 : ℕ) < nPixelsPerLine)]
    rw [trialFirstCycleSample]
    simp
  refine ⟨?_, key⟩
  rw [cycleTime231]
  have hlen : (firstCycleTimes flat nRois nLinesPerRoi nPixelsPerLine dwellTime
      nCyclesPerTrial nTrials).length = nTrials := by
    simp [firstCycleTimes]
  rw [hlen]
  congr 1
  rw [firstCycleTimes, sum_map_range]
  refine Finset.sum_congr rfl ?_
  intro t ht
  rw [Finset.mem_range] at ht
  have h := key t ht
  rw [firstCycleTimes, getD_map_range _ _ _ _ ht] at h
  exact h

/-- Witness for C3: a 2-trial, 1-ROI, 2-lines, 1-cycle dataset with flat
times `[10, 20, 30, 40]`; the per-trial samples are 20 and 40 and the
cycle-time estimate is their mean, 30. -/
theorem cycleTime231_mean_witness :
    cycleTime231 [10, 20, 30, 40] 1 2 1 0 1 2
      = (∑ t ∈ Finset.range 2, trialFirstCycleSample [10, 20, 30, 40] 1 2 1 t) / 2
    ∧ cycleTime231 [10, 20, 30, 40] 1 2 1 0 1 2 = 30 := by
  constructor
  · exact (cycleTime231_mean [10, 20, 30, 40] 1 2 1 0 1 2 (by decide) (by decide)
      (by decide) (by decide) (by decide)).1
  · norm_num [cycleTime231, firstCycleTimes, pixelTimeOffsetsByRoi, cycleSlice,
      startIndex231, List.range_succ]

/-! ## Round-trip through the Gen2+ reconstructor (C4)

The raw timing file of a Gen2+ session covers every line of every cycle of
every trial, ordered ROI-major within cycle, cycle-major within trial,
trial-major overall.  `flattenTensor` builds that flat array from an
abstract `(trial, cycle, roi, line)` tensor `V`; `readRelativeTimes231`
models the zero-padding drop of `_read_relative_times_file`
(`timings.py` line 73). -/

/-- All lines of one cycle, ROI-major (ROI 0's lines, then ROI 1's, ...). -/
def flattenCycle (V : ℕ → ℕ → ℕ → ℕ → ℚ) (t c nRois nLines : ℕ) : List ℚ :=
  ((List.range nRois).map fun r => (List.range nLines).map fun l => V t c r l).flatten

/-- All lines of one trial, cycle-major. -/
def flattenTrial (V : ℕ → ℕ → ℕ → ℕ → ℚ) (t nCycles nRois nLines : ℕ) : List ℚ :=
  ((List.range nCycles).map fun c => flattenCycle V t c nRois nLines).flatten

/-- The full flat timing array, trial-major. -/
def flattenTensor (V : ℕ → ℕ → ℕ → ℕ → ℚ) (nTrials nCycles nRois nLines : ℕ) : List ℚ :=
  ((List.range nTrials).map fun t => flattenTrial V t nCycles nRois nLines).flatten

/-- Embedding of the padding drop in
`LabViewTimings231._read_relative_times_file` (`timings.py` line 73): keep
exactly the non-zero entries. -/
def readRelativeTimes231 (flat : List ℚ) : List ℚ :=
  flat.filter fun v => decide (v ≠ 0)

lemma flattenCycle_length (V : ℕ → ℕ → ℕ → ℕ → ℚ) (t c nRois nLines : ℕ) :
    (flattenCycle V t c nRois nLines).length = nRois * nLines := by
  rw [flattenCycle, length_join_uniform _ nLines]
  · simp
  · intro x hx
    simp only [List.mem_map, List.mem_range] at hx
    obtain ⟨r, -, rfl⟩ := hx
    simp

lemma flattenTrial_length (V : ℕ → ℕ → ℕ → ℕ → ℚ) (t nCycles nRois nLines : ℕ) :
    (flattenTrial V t nCycles nRois nLines).length = nCycles * (nRois * nLines) := by
  rw [flattenTrial, length_join_uniform _ (nRois * nLines)]
  · simp
  · intro x hx
    simp only [List.mem_map, List.mem_range] at hx
    obtain ⟨c, -, rfl⟩ := hx
    exact flattenCycle_length V t c nRois nLines

lemma flattenTensor_length (V : ℕ → ℕ → ℕ → ℕ → ℚ) (nTrials nCycles nRois nLines : ℕ) :
    (flattenTensor V nTrials nCycles nRois nLines).length
      = nTrials * (nCycles * (nRois * nLines)) := by
  rw [flattenTensor, length_join_uniform _ (nCycles * (nRois * nLines))]
  · simp
  · intro x hx
    simp only [List.mem_map, List.mem_range] at hx
    obtain ⟨t, -, rfl⟩ := hx
    exact flattenTrial_length V t nCycles nRois nLines

/-- Reading the flat array back at the flattening order's index recovers
the tensor entry. -/
lemma flattenTensor_getD (V : ℕ → ℕ → ℕ → ℕ → ℚ) (nTrials nCycles nRois nLines : ℕ)
    (t c r l : ℕ) (ht : t < nTrials) (hc : c < nCycles) (hr : r < nRois) (hl : l < nLines) :
    (flattenTensor V nTrials nCycles nRois nLines).getD
        (((t * nCycles + c) * nRois + r) * nLines + l) 0 = V t c r l := by
  have hidx : ((t * nCycles + c) * nRois + r) * nLines + l
      = t * (nCycles * (nRois * nLines)) + (c * (nRois * nLines) + (r * nLines + l)) := by
    ring
  rw [hidx, flattenTensor,
    getD_join_uniform _ (nCycles * (nRois * nLines))
      (by intro x hx
          simp only [List.mem_map, List.mem_range] at hx
          obtain ⟨t', -, rfl⟩ := hx
          exact flattenTrial_length V t' nCycles nRois nLines)
      t _ (by simpa using ht)
      (by have h1 : c * (nRois * nLines) + (r * nLines + l) < (c + 1) * (nRois * nLines) := by
            have h2 : r * nLines + l < (r + 1) * nLines := by rw [Nat.succ_mul]; omega
            have h3 : (r + 1) * nLines ≤ nRois * nLines :=
              Nat.mul_le_mul_right _ hr
            rw [Nat.succ_mul]; omega
          have h4 : (c + 1) * (nRois * nLines) ≤ nCycles * (nRois * nLines) :=
            Nat.mul_le_mul_right _ hc
          omega),
    getD_map_range _ _ _ _ ht, flattenTrial,
    getD_join_uniform _ (nRois * nLines)
      (by intro x hx
          simp only [List.mem_map, List.mem_range] at hx
          obtain ⟨c', -, rfl⟩ := hx
          exact flattenCycle_length V t c' nRois nLines)
      c _ (by simpa using hc)
      (by have h2 : r * nLines + l < (r + 1) * nLines := by rw [Nat.succ_mul]; omega
          have h3 : (r + 1) * nLines ≤ nRois * nLines := Nat.mul_le_mul_right _ hr
          omega),
    getD_map_range _ _ _ _ hc, flattenCycle,
    getD_join_uniform _ nLines
      (by intro x hx
          simp only [List.mem_map, List.mem_range] at hx
          obtain ⟨r', -, rfl⟩ := hx
          simp)
      r _ (by simpa using hr) hl,
    getD_map_range _ _ _ _ hr, getD_map_range _ _ _ _ hl]

/-- On a tensor with no zero entries, the padding drop of
`_read_relative_times_file` keeps the flat array intact. -/
lemma readRelativeTimes231_flattenTensor (V : ℕ → ℕ → ℕ → ℕ → ℚ)
    (nTrials nCycles nRois nLines : ℕ)
    (hnz : ∀ t c r l, t < nTrials → c < nCycles → r < nRois → l < nLines →
      V t c r l ≠ 0) :
    readRelativeTimes231 (flattenTensor V nTrials nCycles nRois nLines)
      = flattenTensor V nTrials nCycles nRois nLines := by
  rw [readRelativeTimes231, List.filter_eq_self]
  intro v hv
  rw [flattenTensor, List.mem_flatten] at hv
  obtain ⟨xt, hxt, hv⟩ := hv
  rw [List.mem_map] at hxt
  obtain ⟨t, ht, rfl⟩ := hxt
  rw [List.mem_range] at ht
  rw [flattenTrial, List.mem_flatten] at hv
  obtain ⟨xc, hxc, hv⟩ := hv
  rw [List.mem_map] at hxc
  obtain ⟨c, hc, rfl⟩ := hxc
  rw [List.mem_range] at hc
  rw [flattenCycle, List.mem_flatten] at hv
  obtain ⟨xr, hxr, hv⟩ := hv
  rw [List.mem_map] at hxr
  obtain ⟨r, hr, rfl⟩ := hxr
  rw [List.mem_range] at hr
  rw [List.mem_map] at hv
  obtain ⟨l, hl, rfl⟩ := hv
  rw [List.mem_range] at hl
  simpa using hnz t c r l ht hc hr hl

/-- C4: feeding the Gen2+ reconstructor the flat array obtained by
flattening a nonzero-valued `(trial, cycle, roi, line)` tensor `V`
(ROI-major within cycle, cycle-major within trial, trial-major overall)
with dwell time `d` yields, for every ROI, a tensor of shape
`(trials*cycles, lines, pixels_per_line)` whose entry at
`(roi, trial*cycles + cycle, line, pixel)` is exactly
`V trial cycle roi line + pixel * d`. -/
theorem roundTrip231 (V : ℕ → ℕ → ℕ → ℕ → ℚ)
    (nTrials nCycles nRois nLines nPixelsPerLine : ℕ) (dwellTime : ℚ)
    (hnz : ∀ t c r l, t < nTrials → c < nCycles → r < nRois → l < nLines →
      V t c r l ≠ 0) :
    (∀ r : ℕ,
      (pixelTimeOffsetsByRoi
          (readRelativeTimes231 (flattenTensor V nTrials nCycles nRois nLines))
          nRois nLines nPixelsPerLine dwellTime nCycles nTrials r).length
        = nTrials * nCycles
      ∧ (∀ i < nTrials * nCycles,
          ((pixelTimeOffsetsByRoi
              (readRelativeTimes231 (flattenTensor V nTrials nCycles nRois nLines))
              nRois nLines nPixelsPerLine dwellTime nCycles nTrials r).getD i []).length
            = nLines
          ∧ ∀ j < nLines,
            (((pixelTimeOffsetsByRoi
                (readRelativeTimes231 (flattenTensor V nTrials nCycles nRois nLines))
                nRois nLines nPixelsPerLine dwellTime nCycles nTrials r).getD i []).getD
              j []).length = nPixelsPerLine))
    ∧ ∀ r t c l p, r < nRois → t < nTrials → c < nCycles → l < nLines →
        p < nPixelsPerLine →
        (((pixelTimeOffsetsByRoi
            (readRelativeTimes231 (flattenTensor V nTrials nCycles nRois nLines))
            nRois nLines nPixelsPerLine dwellTime nCycles nTrials r).getD
          (t * nCycles + c) []).getD l []).getD p 0
          = V t c r l + p * dwellTime := by
  have hflat := readRelativeTimes231_flattenTensor V nTrials nCycles nRois nLines hnz
  constructor
  · intro r
    refine ⟨by simp [pixelTimeOffsetsByRoi, Nat.mul_comm], ?_⟩
    intro i hi
    have hi' : i < nCycles * nTrials := by rwa [Nat.mul_comm nTrials nCycles] at hi
    rw [pixelTimeOffsetsByRoi, getD_map_range _ _ _ _ hi']
    refine ⟨by simp [cycleSlice], ?_⟩
    intro j hj
    rw [cycleSlice, List.map_map, getD_map_range _ _ _ _ hj]
    simp
  · intro r t c l p hr ht hc hl hp
    have hcyc : t * nCycles + c < nCycles * nTrials := by
      rw [Nat.mul_comm nCycles nTrials]
      calc t * nCycles + c < (t + 1) * nCycles := by rw [Nat.succ_mul]; omega
        _ ≤ nTrials * nCycles := Nat.mul_le_mul_right _ ht
    rw [pixelTimeOffsetsByRoi, getD_map_range _ _ _ _ hcyc, cycleSlice, List.map_map,
      getD_map_range _ _ _ _ hl]
    simp only [Function.comp_apply]
    rw [getD_map_range _ _ _ _ hp, hflat]
    have hidx : startIndex231 nRois nLines r (t * nCycles + c) + l
        = ((t * nCycles + c) * nRois + r) * nLines + l := by
      rw [startIndex231]; ring
    rw [hidx, flattenTensor_getD V nTrials nCycles nRois nLines t c r l ht hc hr hl]

/-- Witness for C4: the tensor `V t c r l = 1 + t + c + r + l` (1 trial,
1 cycle, 2 ROIs, 1 line, 2 pixels per line, dwell time 5); the
reconstructed entry for ROI 1, cycle 0, line 0, pixel 1 is
`V 0 0 1 0 + 1 * 5`. -/
theorem roundTrip231_witness :
    (((pixelTimeOffsetsByRoi
        (readRelativeTimes231
          (flattenTensor (fun t c r l => (1 : ℚ) + t + c + r + l) 1 1 2 1))
        2 1 2 5 1 1 1).getD (0 * 1 + 0) []).getD 0 []).getD 1 0
      = (fun t c r l => (1 : ℚ) + t + c + r + l) 0 0 1 0 + 1 * 5 :=
  (roundTrip231 (fun t c r l => (1 : ℚ) + t + c + r + l) 1 1 2 1 2 5
    (by intro t c r l _ _ _ _; positivity)).2 1 0 0 0 1
    (by decide) (by decide) (by decide) (by decide) (by decide)

/-! ## The Gen2+ base offset is a fixed stride, not an accumulating one (C5)

`LabViewTimings._read_roi_data` (`timings.py` lines 18-38) derives
`n_lines_per_roi` and `n_pixels_per_line` from the **first row** of the ROI
table only (its own comment: "for now, take first row and all ROIs are same
size"), and `_format_pixel_time_offsets` (line 82) then uses the fixed
stride `n_lines_per_roi * roi_index + n_lines_per_cycle * cycle_index`.
The specification instead describes an offset that accumulates the line
counts of all previously-visited ROIs so as to stay correct for unequal
line counts; the two disagree as soon as line counts differ. -/

/-- Embedding of the geometry part of `LabViewTimings._read_roi_data`
(`timings.py` lines 26-38): extents are taken from the first ROI row only;
when both extents are zero, pointing mode is assumed and both counts are
forced to 1.  (This file is read as `float64`, so plain subtraction — the
rows are assumed to hold integral coordinates with `stop ≥ start`, which is
when `int()` truncation is exact.)  Returns
`(n_lines_per_roi, n_pixels_per_line)`. -/
def readRoiGeometry (rows : List RoiRow) : ℕ × ℕ :=
  let row0 := rows.getD 0 ⟨0, 0, 0, 0, 0⟩
  let nYPixels := row0.y_stop - row0.y_start
  let nXPixels := row0.x_stop - row0.x_start
  let nLinesPerRoi := if row0.angle_deg = 0 then nYPixels else nXPixels
  let nPixelsPerLine := if row0.angle_deg = 0 then nXPixels else nYPixels
  if nPixelsPerLine = 0 ∧ nLinesPerRoi = 0 then (1, 1)
  else (nLinesPerRoi, nPixelsPerLine)

/-- The accumulating per-ROI base offset as the specification words it
(spec §4.5): the sizes of all previously-visited ROIs, plus a whole-cycle
stride of the total line count per cycle.  This definition follows the
spec, not the code; C5 asks whether the code's `startIndex231` refines it. -/
def specAccumStartIndex (lineCounts : List ℕ) (roiIndex cycleIndex : ℕ) : ℕ :=
  (lineCounts.take roiIndex).sum + lineCounts.sum * cycleIndex

/-- Counterexample to C5: a 3-ROI table whose per-ROI Y-extents are 1, 2
and 3 lines (angle 0).  The reader takes `n_lines_per_roi = 1` from the
first row, and the code's base offset for ROI 2, cycle 0 is the fixed
stride `1 * 2 = 2` — not the accumulated `1 + 2 = 3` line counts of the
previously-visited ROIs. -/
theorem startIndex231_not_accumulating :
    readRoiGeometry [⟨0, 4, 0, 1, 0⟩, ⟨0, 4, 0, 2, 0⟩, ⟨0, 4, 0, 3, 0⟩] = (1, 4)
    ∧ startIndex231 3 1 2 0 = 2
    ∧ specAccumStartIndex [1, 2, 3] 2 0 = 3
    ∧ startIndex231 3 1 2 0 ≠ specAccumStartIndex [1, 2, 3] 2 0 := by decide

/-- C5 (amended): the base offset used by the Gen2+ reconstruction is the
fixed stride `n_lines_per_roi * roi_index + (n_rois * n_lines_per_roi) *
cycle_index`, with `n_lines_per_roi` taken from the first ROI row only;
it agrees with the spec's accumulating offset precisely in the equal-size
case the code documents itself as assuming (every ROI having the first
row's line count). -/
theorem startIndex231_equal_sizes (nRois nLinesPerRoi roiIndex cycleIndex : ℕ)
    (h : roiIndex ≤ nRois) :
    startIndex231 nRois nLinesPerRoi roiIndex cycleIndex
      = specAccumStartIndex (List.replicate nRois nLinesPerRoi) roiIndex cycleIndex := by
  rw [startIndex231, specAccumStartIndex, List.take_replicate, List.sum_replicate,
    List.sum_replicate, Nat.min_eq_left h, smul_eq_mul, smul_eq_mul]
  ring

/-- Witness for the amended C5: with 3 equal-size ROIs of 2 lines each, the
fixed stride and the accumulating offset agree (ROI 2, cycle 1: both 10). -/
theorem startIndex231_equal_sizes_witness :
    startIndex231 3 2 2 1 = specAccumStartIndex (List.replicate 3 2) 2 1 :=
  startIndex231_equal_sizes 3 2 2 1 (by decide)

/-! ## The header-parse loop of `LabViewHeader.from_file` (`header.py` lines 28-56)

The loop reads the file line by line, keeping a current section name, the
ordered raw `fields` triples, the processed `parsed_fields` nested dict,
and the tab-line counter `line_number` (unbound until the first section
line).  Python string operations on a line are modelled structurally:
`strip()` is `trimChars`, `split('=')` is `splitOnChar '='`, `'c' in s` is
`List.contains`; `float(value)` is an abstract parameter `tryFloat` (the
claims hold for every such function).  Python dict assignment is `setItem`
(insertion order preserved, overwrite in place).  An uncaught Python
exception is `Except.error`: `KeyError` from `parsed_fields[section]` when
the section does not exist, `NameError` from `line_number += 1` before any
section line, `IndexError` from `value[0]` on an empty value string.
`warnings.warn` calls are accumulated in `warnings`. -/

/-- The uncaught Python exceptions the parse loop can raise. -/
inductive PError where
  | keyError
  | nameError
  | indexError
deriving DecidableEq, Repr

/-- The loop state of `LabViewHeader.from_file`'s parser. -/
structure ParseState where
  sectionName : String
  fields : List (String × String × String)
  parsed : List (String × List (String × HVal))
  lineNumber : Option ℕ
  warnings : List String
deriving DecidableEq, Repr

instance instDecEqExcept {e a : Type} [DecidableEq e] [DecidableEq a] :
    DecidableEq (Except e a) := fun x y =>
  match x, y with
  | .error u, .error v =>
      if h : u = v then .isTrue (congrArg Except.error h)
      else .isFalse (fun hh => h (Except.error.inj hh))
  | .error _, .ok _ => .isFalse (fun hh => Except.noConfusion hh)
  | .ok _, .error _ => .isFalse (fun hh => Except.noConfusion hh)
  | .ok u, .ok v =>
      if h : u = v then .isTrue (congrArg Except.ok h)
      else .isFalse (fun hh => h (Except.ok.inj hh))

/-- Python `str.strip()`: drop leading and trailing whitespace. -/
def trimChars (l : List Char) : List Char :=
  ((l.dropWhile Char.isWhitespace).reverse.dropWhile Char.isWhitespace).reverse

/-- Python `str.split(c)` for a single-character separator. -/
def splitOnChar (c : Char) : List Char → List (List Char)
  | [] => [[]]
  | x :: xs =>
      let r := splitOnChar c xs
      if x = c then [] :: r else (x :: r.headD []) :: r.tail

/-- Python dict assignment `m[k] = v` on an insertion-ordered mapping:
overwrite in place if the key exists, else append. -/
def setItem {α : Type} (m : List (String × α)) (k : String) (v : α) : List (String × α) :=
  if (m.lookup k).isSome then
    m.map fun p => if p.1 = k then (k, v) else p
  else m ++ [(k, v)]

/-- One iteration of the parse loop of `LabViewHeader.from_file`
(`header.py` lines 32-56): strip the line; skip it when blank; a line
starting with `[` opens a section (name `line[1:-1]`), creates its dict and
resets the tab-line counter; otherwise a line containing `=` is a key/value
pair (raw triple recorded, value float-coerced via `tryFloat` if possible,
else quote-stripped string; `IndexError` on an empty value, `KeyError` if
no section exists yet); otherwise a line containing a tab is recorded as
`line_{n}` (a `NameError` if the counter is still unbound); any other
non-blank line produces one warning and is skipped. -/
def parseLine (tryFloat : String → Option ℚ) (st : ParseState) (rawLine : String) :
    Except PError ParseState :=
  let line := trimChars rawLine.toList
  if line.length = 0 then .ok st
  else if line.headD ' ' = '[' then
    let s := ((line.drop 1).dropLast).asString
    .ok { st with sectionName := s, parsed := setItem st.parsed s [], lineNumber := some 0 }
  else if line.contains '=' then
    let ws := splitOnChar '=' line
    let key := (trimChars (ws.getD 0 [])).asString
    let rawVal := trimChars (ws.getD 1 [])
    let procVal : Except PError HVal :=
      match tryFloat rawVal.asString with
      | some q => .ok (HVal.num q)
      | none =>
          if rawVal.length = 0 then .error .indexError
          else if rawVal.headD ' ' = '\"' ∧ rawVal.getLastD ' ' = '\"' then
            .ok (HVal.str (((rawVal.drop 1).dropLast).asString))
          else .ok (HVal.str rawVal.asString)
    match procVal with
    | .error e => .error e
    | .ok v =>
        match st.parsed.lookup st.sectionName with
        | none => .error .keyError
        | some sec =>
            .ok { st with
              fields := st.fields ++ [(st.sectionName, key, rawVal.asString)],
              parsed := setItem st.parsed st.sectionName (setItem sec key v) }
  else if line.contains '\t' then
    match st.lineNumber with
    | none => .error .nameError
    | some n =>
        .ok { st with
          lineNumber := some (n + 1),
          fields := st.fields ++ [(st.sectionName, "line_" ++ toString (n + 1), line.asString)] }
  else
    .ok { st with warnings := st.warnings ++ [line.asString] }

/-- The state at the start of the loop: empty section name, no sections
parsed, tab-line counter unbound. -/
def initialParseState : ParseState := ⟨"", [], [], none, []⟩

/-- The whole parse loop of `LabViewHeader.from_file`, over the stripped
lines of the file.  An `Except.error` aborts the parse at that line, as the
uncaught Python exception would. -/
def parseHeaderLines (tryFloat : String → Option ℚ) (lines : List String) :
    Except PError ParseState :=
  lines.foldlM (parseLine tryFloat) initialParseState

/-- A line is unrecognized when, after stripping, it is non-blank, does not
start with `[`, and contains neither `=` nor a tab — the `else` branch of
the loop, which warns and skips. -/
def isUnrecognizedB (l : String) : Bool :=
  let t := trimChars l.toList
  t.length != 0 && t.headD ' ' != '[' && !(t.contains '=') && !(t.contains '\t')

/-- Forget the accumulated warnings (used to compare parse outcomes up to
warnings). -/
def clearWarnings (st : ParseState) : ParseState := { st with warnings := [] }

/-- An unrecognized line adds exactly one warning and changes nothing else. -/
lemma parseLine_unrecognized (f : String → Option ℚ) (st : ParseState) (l : String)
    (h : isUnrecognizedB l = true) :
    parseLine f st l
      = .ok { st with warnings := st.warnings ++ [(trimChars l.toList).asString] } := by
  rw [isUnrecognizedB] at h
  simp only [Bool.and_eq_true] at h
  obtain ⟨⟨⟨h1, h2⟩, h3⟩, h4⟩ := h
  have h1' : ¬(trimChars l.toList).length = 0 := by simpa using h1
  have h2' : ¬(trimChars l.toList).headD ' ' = '[' := by simpa using h2
  have h3' : (trimChars l.toList).contains '=' = false := by
    revert h3; cases (trimChars l.toList).contains '=' <;> simp
  have h4' : (trimChars l.toList).contains '\t' = false := by
    revert h4; cases (trimChars l.toList).contains '\t' <;> simp
  unfold parseLine
  rw [if_neg h1', if_neg h2', if_neg (fun hc => by rw [h3'] at hc; cases hc),
    if_neg (fun hc => by rw [h4'] at hc; cases hc)]

/-- A recognized line neither reads nor changes the warnings accumulated so
far. -/
lemma parseLine_recognized_warnings (f : String → Option ℚ) (l : String)
    (h : isUnrecognizedB l = false) (st : ParseState) (w : List String) :
    parseLine f { st with warnings := w } l
      = (parseLine f st l).map (fun s => { s with warnings := w }) := by
  by_cases c1 : (trimChars l.toList).length = 0
  · unfold parseLine
    rw [if_pos c1, if_pos c1]
    rfl
  by_cases c2 : (trimChars l.toList).headD ' ' = '['
  · unfold parseLine
    rw [if_neg c1, if_neg c1, if_pos c2, if_pos c2]
    rfl
  by_cases c3 : (trimChars l.toList).contains '=' = true
  · unfold parseLine
    rw [if_neg c1, if_neg c1, if_neg c2, if_neg c2, if_pos c3, if_pos c3]
    dsimp only
    rcases hf : f ((trimChars ((splitOnChar '=' (trimChars l.toList)).getD 1 [])).asString)
        with - | q
    · by_cases d1 : (trimChars ((splitOnChar '=' (trimChars l.toList)).getD 1 [])).length = 0
      · rw [if_pos d1]
        rfl
      · rw [if_neg d1]
        by_cases d2 : (trimChars ((splitOnChar '=' (trimChars l.toList)).getD 1 [])).headD ' '
              = '\"'
            ∧ (trimChars ((splitOnChar '=' (trimChars l.toList)).getD 1 [])).getLastD ' '
              = '\"'
        · rw [if_pos d2]
          rcases hlk : st.parsed.lookup st.sectionName with - | sec <;> rfl
        · rw [if_neg d2]
          rcases hlk : st.parsed.lookup st.sectionName with - | sec <;> rfl
    · rcases hlk : st.parsed.lookup st.sectionName with - | sec <;> rfl
  by_cases c4 : (trimChars l.toList).contains '\t' = true
  · unfold parseLine
    rw [if_neg c1, if_neg c1, if_neg c2, if_neg c2, if_neg c3, if_neg c3, if_pos c4, if_pos c4]
    dsimp only
    rcases hn : st.lineNumber with - | n <;> rfl
  · have htrue : isUnrecognizedB l = true := by
      rw [isUnrecognizedB]
      simp only [Bool.and_eq_true]
      refine ⟨⟨⟨?_, ?_⟩, ?_⟩, ?_⟩
      · simpa using c1
      · simpa using c2
      · simpa using c3
      · simpa using c4
    rw [htrue] at h
    cases h


lemma ok_bind {e a b : Type} (x : a) (g : a → Except e b) :
    (Except.ok x >>= g) = g x := rfl

lemma error_bind {e a b : Type} (u : e) (g : a → Except e b) :
    ((Except.error u : Except e a) >>= g) = Except.error u := rfl

lemma except_map_map {e a b c : Type} (g : a → b) (h : b → c) (x : Except e a) :
    (x.map g).map h = x.map (fun y => h (g y)) := by
  cases x <;> rfl

/-- Over recognized lines only, the parse ignores the warnings component of
the state. -/
lemma foldlM_recognized_warnings (f : String → Option ℚ) (lines : List String)
    (hrec : ∀ l ∈ lines, isUnrecognizedB l = false) (st : ParseState) (w : List String) :
    List.foldlM (parseLine f) { st with warnings := w } lines
      = (List.foldlM (parseLine f) st lines).map (fun s => { s with warnings := w }) := by
  induction lines generalizing st with
  | nil => rfl
  | cons l ls ih =>
      have hl := hrec l (List.mem_cons_self l ls)
      rw [List.foldlM_cons, List.foldlM_cons, parseLine_recognized_warnings f l hl st w]
      rcases hp : parseLine f st l with u | s
      · rfl
      · change List.foldlM (parseLine f) { s with warnings := w } ls
          = (List.foldlM (parseLine f) s ls).map (fun s => { s with warnings := w })
        exact ih (fun x hx => hrec x (List.mem_cons_of_mem l hx)) s

/-- Over recognized lines only, a successful parse leaves the warnings
unchanged. -/
lemma foldlM_recognized_warnings_const (f : String → Option ℚ) (lines : List String)
    (hrec : ∀ l ∈ lines, isUnrecognizedB l = false) (st : ParseState) (s : ParseState)
    (hok : List.foldlM (parseLine f) st lines = .ok s) : s.warnings = st.warnings := by
  have h := foldlM_recognized_warnings f lines hrec st st.warnings
  rw [show ({ st with warnings := st.warnings } : ParseState) = st from rfl, hok] at h
  have h2 : Except.ok s = Except.ok { s with warnings := st.warnings } := h
  have h3 := Except.ok.inj h2
  have h4 := congrArg ParseState.warnings h3
  exact h4


/-- Removing all unrecognized lines from the input changes nothing but the
warning list: the parse of the full input equals the parse of the
recognized lines alone, with the unrecognized lines' warnings appended. -/
lemma foldlM_filter_unrecognized (f : String → Option ℚ) (lines : List String) :
    ∀ st : ParseState,
      List.foldlM (parseLine f) st lines
        = (List.foldlM (parseLine f) st
            (lines.filter (fun l => !(isUnrecognizedB l)))).map
            (fun s => { s with warnings :=
                s.warnings ++ ((lines.filter isUnrecognizedB).map
                  (fun l => (trimChars l.toList).asString)) }) := by
  induction lines with
  | nil =>
      intro st
      simp only [List.filter_nil, List.map_nil, List.append_nil]
      rfl
  | cons l ls ih =>
      intro st
      by_cases hu : isUnrecognizedB l = true
      · rw [List.foldlM_cons, parseLine_unrecognized f st l hu, ok_bind,
          ih { st with warnings := st.warnings ++ [(trimChars l.toList).asString] }]
        have hfilt1 : (l :: ls).filter (fun x => !(isUnrecognizedB x))
            = ls.filter (fun x => !(isUnrecognizedB x)) := by simp [hu]
        have hfilt2 : (l :: ls).filter isUnrecognizedB = l :: ls.filter isUnrecognizedB := by
          simp [hu]
        rw [hfilt1, hfilt2]
        have hrec : ∀ x ∈ ls.filter (fun x => !(isUnrecognizedB x)),
            isUnrecognizedB x = false := by
          intro x hx
          have hmem := List.of_mem_filter hx
          simpa using hmem
        rw [foldlM_recognized_warnings f _ hrec st
          (st.warnings ++ [(trimChars l.toList).asString]), except_map_map]
        rcases hres : List.foldlM (parseLine f) st (ls.filter (fun x => !(isUnrecognizedB x)))
            with u | s
        · rfl
        · have hw := foldlM_recognized_warnings_const f _ hrec st s hres
          simp [Except.map, hw]
      · have hu' : isUnrecognizedB l = false := by
          revert hu; cases isUnrecognizedB l <;> simp
        rw [List.foldlM_cons]
        have hfilt1 : (l :: ls).filter (fun x => !(isUnrecognizedB x))
            = l :: ls.filter (fun x => !(isUnrecognizedB x)) := by simp [hu']
        have hfilt2 : (l :: ls).filter isUnrecognizedB = ls.filter isUnrecognizedB := by
          simp [hu']
        rw [hfilt1, hfilt2, List.foldlM_cons]
        rcases hp : parseLine f st l with u | s
        · rfl
        · exact ih s


lemma foldlM_append_except {e a b : Type} (g : b → a → Except e b) (l1 l2 : List a) :
    ∀ st, List.foldlM g st (l1 ++ l2)
      = List.foldlM g st l1 >>= fun s => List.foldlM g s l2 := by
  induction l1 with
  | nil => intro st; rfl
  | cons x xs ih =>
      intro st
      rw [List.cons_append, List.foldlM_cons, List.foldlM_cons]
      rcases hp : g st x with u | s
      · rfl
      · exact ih s

/-- C9: every unrecognized non-blank line produces exactly one warning and
is skipped with the rest of the state untouched; the parse outcome (up to
the warning list) is exactly that of the input with all unrecognized lines
removed — so their presence never aborts the parse or changes the parsed
fields produced from the recognized lines; and a successful parse's warning
list is exactly the stripped unrecognized lines, in order. -/
theorem header_unrecognized_lines_spec (f : String → Option ℚ) (lines : List String) :
    (∀ (st : ParseState) (l : String), isUnrecognizedB l = true →
      parseLine f st l
        = .ok { st with warnings := st.warnings ++ [(trimChars l.toList).asString] })
    ∧ Except.map clearWarnings (parseHeaderLines f lines)
        = Except.map clearWarnings
            (parseHeaderLines f (lines.filter (fun l => !(isUnrecognizedB l))))
    ∧ (∀ st : ParseState, parseHeaderLines f lines = .ok st →
        st.warnings = (lines.filter isUnrecognizedB).map
          (fun l => (trimChars l.toList).asString)) := by
  refine ⟨fun st l h => parseLine_unrecognized f st l h, ?_, ?_⟩
  · rw [parseHeaderLines, parseHeaderLines,
      foldlM_filter_unrecognized f lines initialParseState, except_map_map]
    rcases List.foldlM (parseLine f) initialParseState
        (lines.filter (fun l => !(isUnrecognizedB l))) with u | s
    · rfl
    · rfl
  · intro st hok
    have hrec : ∀ x ∈ lines.filter (fun x => !(isUnrecognizedB x)),
        isUnrecognizedB x = false := by
      intro x hx
      have hmem := List.of_mem_filter hx
      simpa using hmem
    rw [parseHeaderLines, foldlM_filter_unrecognized f lines initialParseState] at hok
    rcases hres : List.foldlM (parseLine f) initialParseState
        (lines.filter (fun l => !(isUnrecognizedB l))) with u | s
    · rw [hres] at hok
      cases hok
    · rw [hres] at hok
      have hw := foldlM_recognized_warnings_const f _ hrec initialParseState s hres
      have h2 : Except.ok ({ s with warnings :=
          s.warnings ++ ((lines.filter isUnrecognizedB).map
            (fun l => (trimChars l.toList).asString)) } : ParseState) = Except.ok st := hok
      have h3 := congrArg ParseState.warnings (Except.ok.inj h2)
      rw [← h3, hw]
      rfl

/-- Witness for C9: the unrecognized line `"junk !"` warns and is skipped;
in a 4-line header it contributes exactly its own warning. -/
theorem header_unrecognized_lines_spec_witness :
    parseLine (fun _ => none) initialParseState "junk !"
        = .ok { initialParseState with warnings :=
            initialParseState.warnings ++ [(trimChars "junk !".toList).asString] }
    ∧ (⟨"A", [("A", "k", "v"), ("A", "line_1", "1\t2.5")],
        [("A", [("k", HVal.str "v")])], some 1, ["junk !"]⟩ : ParseState).warnings
        = (["[A]", "k = v", "junk !", "1\t2.5"].filter isUnrecognizedB).map
            (fun l => (trimChars l.toList).asString) :=
  ⟨(header_unrecognized_lines_spec (fun _ => none) []).1 initialParseState "junk !"
      (by decide),
   (header_unrecognized_lines_spec (fun _ => none)
      ["[A]", "k = v", "junk !", "1\t2.5"]).2.2
      ⟨"A", [("A", "k", "v"), ("A", "line_1", "1\t2.5")],
        [("A", [("k", HVal.str "v")])], some 1, ["junk !"]⟩ (by decide)⟩


/-- Before any section line, a non-section line either raises or preserves
the no-section state (no parsed sections, tab counter unbound). -/
lemma parseLine_no_section_preserves (f : String → Option ℚ) (st : ParseState) (x : String)
    (hx : ¬(trimChars x.toList).headD ' ' = '[')
    (h1 : st.parsed = []) (h2 : st.lineNumber = none) :
    (∃ u, parseLine f st x = .error u)
    ∨ ∃ s : ParseState, parseLine f st x = .ok s ∧ s.parsed = [] ∧ s.lineNumber = none := by
  unfold parseLine
  by_cases c1 : (trimChars x.toList).length = 0
  · right
    exact ⟨st, by rw [if_pos c1], h1, h2⟩
  rw [if_neg c1, if_neg hx]
  by_cases c3 : (trimChars x.toList).contains '=' = true
  · rw [if_pos c3]
    dsimp only
    left
    rcases f ((trimChars ((splitOnChar '=' (trimChars x.toList)).getD 1 [])).asString)
        with - | q
    · by_cases d1 : (trimChars ((splitOnChar '=' (trimChars x.toList)).getD 1 [])).length = 0
      · rw [if_pos d1]
        exact ⟨.indexError, rfl⟩
      · rw [if_neg d1]
        by_cases d2 : (trimChars ((splitOnChar '=' (trimChars x.toList)).getD 1 [])).headD ' '
              = '\"'
            ∧ (trimChars ((splitOnChar '=' (trimChars x.toList)).getD 1 [])).getLastD ' '
              = '\"'
        · rw [if_pos d2, h1]
          exact ⟨.keyError, rfl⟩
        · rw [if_neg d2, h1]
          exact ⟨.keyError, rfl⟩
    · rw [h1]
      exact ⟨.keyError, rfl⟩
  rw [if_neg c3]
  by_cases c4 : (trimChars x.toList).contains '\t' = true
  · rw [if_pos c4, h2]
    left
    exact ⟨.nameError, rfl⟩
  · rw [if_neg c4]
    right
    exact ⟨_, rfl, h1, h2⟩

/-- A key/value or table line hit in the no-section state raises an
uncaught exception. -/
lemma parseLine_no_section_aborts (f : String → Option ℚ) (st : ParseState) (l : String)
    (h1 : st.parsed = []) (h2 : st.lineNumber = none)
    (hl0 : ¬(trimChars l.toList).length = 0)
    (hl1 : ¬(trimChars l.toList).headD ' ' = '[')
    (hl2 : (trimChars l.toList).contains '=' = true
      ∨ (trimChars l.toList).contains '\t' = true) :
    ∃ u, parseLine f st l = .error u := by
  unfold parseLine
  rw [if_neg hl0, if_neg hl1]
  by_cases c3 : (trimChars l.toList).contains '=' = true
  · rw [if_pos c3]
    dsimp only
    rcases f ((trimChars ((splitOnChar '=' (trimChars l.toList)).getD 1 [])).asString)
        with - | q
    · by_cases d1 : (trimChars ((splitOnChar '=' (trimChars l.toList)).getD 1 [])).length = 0
      · rw [if_pos d1]
        exact ⟨.indexError, rfl⟩
      · rw [if_neg d1]
        by_cases d2 : (trimChars ((splitOnChar '=' (trimChars l.toList)).getD 1 [])).headD ' '
              = '\"'
            ∧ (trimChars ((splitOnChar '=' (trimChars l.toList)).getD 1 [])).getLastD ' '
              = '\"'
        · rw [if_pos d2, h1]
          exact ⟨.keyError, rfl⟩
        · rw [if_neg d2, h1]
          exact ⟨.keyError, rfl⟩
    · rw [h1]
      exact ⟨.keyError, rfl⟩
  · have c4 : (trimChars l.toList).contains '\t' = true := by
      rcases hl2 with h | h
      · exact absurd h c3
      · exact h
    rw [if_neg c3, if_pos c4, h2]
    exact ⟨.nameError, rfl⟩

/-- Processing lines none of which starts a section either raises or keeps
the no-section state. -/
lemma foldlM_no_section (f : String → Option ℚ) (pre : List String)
    (hpre : ∀ x ∈ pre, ¬(trimChars x.toList).headD ' ' = '[') :
    ∀ st : ParseState, st.parsed = [] → st.lineNumber = none →
      (∃ u, List.foldlM (parseLine f) st pre = .error u)
      ∨ ∃ s : ParseState, List.foldlM (parseLine f) st pre = .ok s
          ∧ s.parsed = [] ∧ s.lineNumber = none := by
  induction pre with
  | nil =>
      intro st h1 h2
      right
      exact ⟨st, rfl, h1, h2⟩
  | cons x xs ih =>
      intro st h1 h2
      rw [List.foldlM_cons]
      rcases parseLine_no_section_preserves f st x (hpre x (List.mem_cons_self x xs)) h1 h2
          with ⟨u, hu⟩ | ⟨s, hs, hs1, hs2⟩
      · left
        rw [hu]
        exact ⟨u, rfl⟩
      · rw [hs, ok_bind]
        exact ih (fun y hy => hpre y (List.mem_cons_of_mem x hy)) s hs1 hs2

/-- C10: the parser is not total — if a key/value line (contains `=`) or a
table line (contains a tab) appears before the first `[section]` line, the
parse raises an uncaught exception and aborts instead of warning and
skipping. -/
theorem parse_aborts_without_section (f : String → Option ℚ) (pre : List String)
    (l : String) (post : List String)
    (hpre : ∀ x ∈ pre, ¬(trimChars x.toList).headD ' ' = '[')
    (hl0 : ¬(trimChars l.toList).length = 0)
    (hl1 : ¬(trimChars l.toList).headD ' ' = '[')
    (hl2 : (trimChars l.toList).contains '=' = true
      ∨ (trimChars l.toList).contains '\t' = true) :
    ∃ u, parseHeaderLines f (pre ++ l :: post) = .error u := by
  rw [parseHeaderLines, foldlM_append_except]
  rcases foldlM_no_section f pre hpre initialParseState rfl rfl
      with ⟨u, hu⟩ | ⟨s, hs, hs1, hs2⟩
  · rw [hu]
    exact ⟨u, rfl⟩
  · rw [hs, ok_bind, List.foldlM_cons]
    obtain ⟨u2, hu2⟩ := parseLine_no_section_aborts f s l hs1 hs2 hl0 hl1 hl2
    rw [hu2]
    exact ⟨u2, rfl⟩

/-! ## Legacy trial-boundary detection (`NwbFile.determine_trial_times`,
`nwb_file.py` lines 517-557)

For pre-2018 sessions the trial boundaries are recovered from the
`trial_times` counter (per-line relative times, microseconds): first
differences with `-1` prepended and appended (`np.ediff1d`), indices of
negative deltas, paired two at a time after truncating to `2 * (count / 2)`
entries (`np.resize`), the second index of each pair decremented; the
epoch start is the timestamp at the first reset index minus the counter
value there scaled to seconds, the epoch stop is the timestamp at the
decremented second index.  The write loop then runs
`assert stop_time > start_time >= 0` before adding each trial; a failing
assertion aborts with no trials produced, which we model with `Option`. -/

/-- Embedding of `np.ediff1d(trial_times, to_begin=-1, to_end=-1)`. -/
def legacyDeltas (xs : List ℚ) : List ℚ :=
  -1 :: (List.zipWith (fun a b => a - b) xs.tail xs ++ [-1])

/-- Embedding of `(deltas < 0).nonzero()[0]`: the indices of the negative deltas. -/
def legacyResetIdxs (xs : List ℚ) : List ℕ :=
  (List.range (legacyDeltas xs).length).filter
    (fun i => decide ((legacyDeltas xs).getD i 0 < 0))

/-- Embedding of `num_trials = reset_idxs.size // 2`. -/
def legacyNumTrials (xs : List ℚ) : ℕ := (legacyResetIdxs xs).length / 2

/-- Embedding of `np.resize(reset_idxs, (num_trials, 2))` followed by
`reset_idxs[:, 1] -= 1`: consecutive reset indices paired two at a time
(one trailing unmatched reset dropped), ends decremented. -/
def legacyResetPairs (xs : List ℚ) : List (ℕ × ℕ) :=
  (List.range (legacyNumTrials xs)).map fun i =>
    ((legacyResetIdxs xs).getD (2 * i) 0, (legacyResetIdxs xs).getD (2 * i + 1) 0 - 1)

/-- Embedding of `epoch_times = rel_times[reset_idxs]` with
`epoch_times[:, 0] -= trial_times[reset_idxs[:, 0]] * 1e-6`: the resolved
(start, stop) intervals. -/
def legacyEpochTimes (xs relTimes : List ℚ) : List (ℚ × ℚ) :=
  (legacyResetPairs xs).map fun p =>
    (relTimes.getD p.1 0 - xs.getD p.1 0 * (1 / 1000000), relTimes.getD p.2 0)

/-- The epoch-writing loop (`nwb_file.py` lines 548-557): each interval is
asserted to satisfy `stop_time > start_time >= 0` before the trial is
added; a failing assertion aborts the run (`none`). -/
def addTrials : List (ℚ × ℚ) → Option (List (ℚ × ℚ))
  | [] => some []
  | p :: ps =>
      if 0 ≤ p.1 ∧ p.1 < p.2 then
        match addTrials ps with
        | some l => some (p :: l)
        | none => none
      else none

/-- The legacy branch of `NwbFile.determine_trial_times` end to end:
reset detection, pairing, and the assert-guarded trial-writing loop. -/
def legacyDetermineTrialTimes (xs relTimes : List ℚ) : Option (List (ℚ × ℚ)) :=
  addTrials (legacyEpochTimes xs relTimes)

/-- A successful run of the assert-guarded loop returns exactly the
computed intervals, and each interval passed its assertion. -/
lemma addTrials_some (eps : List (ℚ × ℚ)) :
    ∀ l, addTrials eps = some l → l = eps ∧ ∀ p ∈ l, p.1 < p.2 ∧ 0 ≤ p.1 := by
  induction eps with
  | nil =>
      intro l h
      rw [addTrials] at h
      cases h
      exact ⟨rfl, by intro p hp; cases hp⟩
  | cons p ps ih =>
      intro l h
      rw [addTrials] at h
      by_cases hc : 0 ≤ p.1 ∧ p.1 < p.2
      · rw [if_pos hc] at h
        rcases hr : addTrials ps with - | l2
        · rw [hr] at h
          cases h
        · rw [hr] at h
          cases h
          obtain ⟨he, hall⟩ := ih l2 hr
          subst he
          refine ⟨rfl, ?_⟩
          intro q hq
          rcases List.mem_cons.mp hq with rfl | hq2
          · exact ⟨hc.2, hc.1⟩
          · exact hall q hq2
      · rw [if_neg hc] at h
        cases h

/-- Selecting the indices at which a predicate holds selects as many
indices as there are matching entries. -/
lemma length_filter_range_getD (l : List ℚ) (p : ℚ → Bool) :
    ((List.range l.length).filter (fun i => p (l.getD i 0))).length
      = (l.filter p).length := by
  induction l with
  | nil => simp
  | cons x xs ih =>
      have hcomp : ((List.range xs.length).map Nat.succ).filter
            (fun i => p ((x :: xs).getD i 0))
          = ((List.range xs.length).filter (fun i => p (xs.getD i 0))).map Nat.succ := by
        rw [List.filter_map]
        congr 1
      rw [List.length_cons, List.range_succ_eq_map, List.filter_cons, List.filter_cons,
        hcomp]
      have ih2 := ih
      simp only [List.getD_eq_getElem?_getD] at ih2
      by_cases hp : p x = true
      · simp [hp, ih2]
      · simp [hp, ih2]

/-- C2: the legacy reset-detection algorithm produces exactly
`(number of negative deltas) // 2` trials, where the deltas are the first
differences of the counter with the `-1` sentinel prepended and appended;
every interval a successful run produces satisfies `stop > start ≥ 0` (the
run aborts otherwise); and interval `i`'s start is the timestamp at reset
index `2i` minus the counter value there scaled to seconds, its stop the
timestamp just before reset index `2i+1`. -/
theorem legacy_trial_times_spec (xs relTimes : List ℚ) :
    (legacyEpochTimes xs relTimes).length
        = ((legacyDeltas xs).filter (fun d => decide (d < 0))).length / 2
    ∧ (∀ l, legacyDetermineTrialTimes xs relTimes = some l →
        l = legacyEpochTimes xs relTimes ∧ ∀ p ∈ l, p.1 < p.2 ∧ 0 ≤ p.1)
    ∧ (∀ i, i < legacyNumTrials xs →
        (legacyEpochTimes xs relTimes).getD i (0, 0)
          = (relTimes.getD ((legacyResetIdxs xs).getD (2 * i) 0) 0
              - xs.getD ((legacyResetIdxs xs).getD (2 * i) 0) 0 * (1 / 1000000),
             relTimes.getD ((legacyResetIdxs xs).getD (2 * i + 1) 0 - 1) 0)) := by
  refine ⟨?_, ?_, ?_⟩
  · rw [legacyEpochTimes, List.length_map, legacyResetPairs, List.length_map,
      List.length_range, legacyNumTrials, legacyResetIdxs]
    exact congrArg (fun n => n / 2)
      (length_filter_range_getD (legacyDeltas xs) (fun d => decide (d < 0)))
  · intro l h
    exact addTrials_some _ l h
  · intro i hi
    rw [legacyEpochTimes, legacyResetPairs, List.map_map, getD_map_range _ _ _ _ hi]
    rfl

/-- Witness for C2: counter `[0, 1, 0, 1]` (resets at positions 0, 2 and
the appended sentinel at 4, the unmatched third reset dropped) with
timestamps `[10, 11, 12, 13]` yields the single trial `(10, 11)`, which
passes its assertion; its start is the reset-0 timestamp minus the offset
there. -/
theorem legacy_trial_times_spec_witness :
    ([((10 : ℚ), (11 : ℚ))] = legacyEpochTimes [0, 1, 0, 1] [10, 11, 12, 13]
      ∧ ∀ p ∈ [((10 : ℚ), (11 : ℚ))], p.1 < p.2 ∧ 0 ≤ p.1)
    ∧ (legacyEpochTimes [0, 1, 0, 1] [10, 11, 12, 13]).getD 0 (0, 0)
      = (([10, 11, 12, 13] : List ℚ).getD ((legacyResetIdxs [0, 1, 0, 1]).getD 0 0) 0
          - ([0, 1, 0, 1] : List ℚ).getD ((legacyResetIdxs [0, 1, 0, 1]).getD 0 0) 0
            * (1 / 1000000),
         ([10, 11, 12, 13] : List ℚ).getD ((legacyResetIdxs [0, 1, 0, 1]).getD 1 0 - 1) 0) :=
  ⟨(legacy_trial_times_spec [0, 1, 0, 1] [10, 11, 12, 13]).2.1 [(10, 11)]
      (by norm_num [legacyDetermineTrialTimes, legacyEpochTimes, legacyResetPairs,
        legacyNumTrials, legacyResetIdxs, legacyDeltas, List.range_succ, addTrials]),
   (legacy_trial_times_spec [0, 1, 0, 1] [10, 11, 12, 13]).2.2 0
      (by norm_num [legacyNumTrials, legacyResetIdxs, legacyDeltas, List.range_succ])⟩

/-- Witness for C10: a key/value line preceded only by an unrecognized line
aborts the parse (with the `KeyError` of the empty section name). -/
theorem parse_aborts_without_section_witness :
    (∃ u, parseHeaderLines (fun _ => none) ["junk", "key = value", "[A]", "k = v"]
      = .error u)
    ∧ parseHeaderLines (fun _ => none) ["junk", "key = value", "[A]", "k = v"]
      = .error PError.keyError :=
  ⟨parse_aborts_without_section (fun _ => none) ["junk"] "key = value" ["[A]", "k = v"]
      (by decide) (by decide) (by decide) (Or.inl (by decide)),
   by decide⟩


end SilverLab
